import Mathlib

/-!
Verification of the backtesting kernel of the algo-trading platform.

The definitions below are a shallow embedding of the function
`sma_crossover_backtest` in `backend/app/api/v1/routes.py`.  Prices and
monetary amounts (Python floats) are modelled as exact rationals; share
counts (Python ints) as integers; missing indicator values (pandas `NaN`)
as `Option`.  Bars are pairs of a timestamp (an abstract natural number)
and a close price; open/high/low are never consulted by the trading logic
and are omitted.
-/

set_option maxRecDepth 4000

/-- Trade side, the `"side"` field of a trade record (`"BUY"` / `"SELL"`). -/
inductive Side where
  | buy : Side
  | sell : Side
deriving DecidableEq, Repr

/-- One executed order, mirroring the dictionaries appended to `trades`
(routes.py lines 262-270, 275-283, 301-309). -/
structure Trade where
  timestamp : ℕ
  side : Side
  price : ℚ
  shares : ℤ
  equityAfterTrade : ℚ
deriving DecidableEq, Repr

/-- One equity-curve point, mirroring the dictionaries appended to
`equity_curve` (routes.py line 293). -/
structure EquityPoint where
  timestamp : ℕ
  equity : ℚ
deriving DecidableEq, Repr

/-- The mutable ledger of the simulation loop (routes.py lines 240-247):
`cash`, `shares`, `entry_price`, `entry_shares`, `completed_trades`,
`wins`, plus the two output lists `trades` and `equity_curve`. -/
structure SimState where
  cash : ℚ
  shares : ℤ
  entryPrice : Option ℚ
  entryShares : ℤ
  completedTrades : ℕ
  wins : ℕ
  trades : List Trade
  equityCurve : List EquityPoint
deriving DecidableEq, Repr

/-- Python `round(x, 2)` idealised over the rationals: round `100 * x` to
the nearest integer, ties to the even integer (the banker rounding used by
Python `round`), and divide by `100`.  The code applies this only to
reported figures, never to the running state. -/
def rnd2 (x : ℚ) : ℚ :=
  let y : ℚ := 100 * x
  let f : ℤ := ⌊y⌋
  let r : ℚ := y - f
  ((if r < 1/2 then f else if 1/2 < r then f + 1 else if 2 ∣ f then f else f + 1 : ℤ) : ℚ) / 100

/-- Signal series `history["position"].diff().fillna(0)` (routes.py line 226): the
first element of `diff` is `NaN`, which `fillna(0)` turns into `0`; every
later element is the difference with the previous position. -/
def signalOf : List ℤ → List ℤ
  | [] => []
  | p :: ps => 0 :: List.zipWith (fun cur prev => cur - prev) ps (p :: ps)

/-- Initial ledger (routes.py lines 240-247). -/
def initState (initialCapital : ℚ) : SimState :=
  { cash := initialCapital, shares := 0, entryPrice := none, entryShares := 0,
    completedTrades := 0, wins := 0, trades := [], equityCurve := [] }

/-- One iteration of the simulation loop (routes.py lines 249-293) on a
row `(timestamp, close, signal)`.

* `signal == 1 and shares == 0`: `shares = int(cash // price)` (floor
  division), and if positive, buy: debit cost plus commission, record the
  entry and a BUY trade.  The floor-division result is assigned to
  `shares` even when it is not positive.
* `signal == -1 and shares > 0`: sell everything, credit proceeds minus
  commission, record a SELL trade, and if an entry was recorded
  (`entry_price is not None and entry_shares`), count one completed trade
  and a win when `price > entry_price`; clear the entry.
* In every case append an equity point `round(cash + shares * price, 2)`. -/
def step (feeRate : ℚ) (st : SimState) (row : ℕ × ℚ × ℤ) : SimState :=
  let t := row.1
  let price := row.2.1
  let signal := row.2.2
  let st1 :=
    if signal = 1 ∧ st.shares = 0 then
      let sh : ℤ := ⌊st.cash / price⌋
      if 0 < sh then
        let cost := (sh : ℚ) * price
        let commission := cost * feeRate
        let cash := st.cash - (cost + commission)
        { st with cash := cash, shares := sh, entryPrice := some price, entryShares := sh,
                  trades := st.trades ++ [{ timestamp := t, side := Side.buy, price := price,
                                            shares := sh,
                                            equityAfterTrade := rnd2 (cash + (sh : ℚ) * price) }] }
      else
        { st with shares := sh }
    else if signal = -1 ∧ 0 < st.shares then
      let proceeds := (st.shares : ℚ) * price
      let commission := proceeds * feeRate
      let cash := st.cash + (proceeds - commission)
      let completed :=
        match st.entryPrice with
        | some _ => if st.entryShares ≠ 0 then st.completedTrades + 1 else st.completedTrades
        | none => st.completedTrades
      let winCount :=
        match st.entryPrice with
        | some ep => if st.entryShares ≠ 0 ∧ ep < price then st.wins + 1 else st.wins
        | none => st.wins
      { st with cash := cash, shares := 0, entryPrice := none, entryShares := 0,
                completedTrades := completed, wins := winCount,
                trades := st.trades ++ [{ timestamp := t, side := Side.sell, price := price,
                                          shares := st.shares, equityAfterTrade := rnd2 cash }] }
    else st
  { st1 with equityCurve := st1.equityCurve ++
      [{ timestamp := t, equity := rnd2 (st1.cash + (st1.shares : ℚ) * price) }] }

/-- Assignment `equity_curve[-1]["equity"] = v` (routes.py line 315): replace the
equity value of the last point, keeping its timestamp; no point is added
or removed.  (On an empty list the Python indexing would fail; the code
only reaches this assignment when at least one bar was simulated.) -/
def setLastEquity (l : List EquityPoint) (v : ℚ) : List EquityPoint :=
  match l.getLast? with
  | some p => l.dropLast ++ [{ p with equity := v }]
  | none => l

/-- End-of-run forced liquidation (routes.py lines 296-315): if shares
remain, sell them at the last close with the usual fee, append a SELL
trade stamped with the last timestamp, apply the same completed-trade and
win accounting as an ordinary sell, zero the share count (the entry
fields are left as they are, unlike an ordinary sell), and overwrite the
equity value of the last equity point with `round(cash, 2)`. -/
def forceLiquidate (feeRate : ℚ) (t : ℕ) (price : ℚ) (st : SimState) : SimState :=
  if 0 < st.shares then
    let proceeds := (st.shares : ℚ) * price
    let commission := proceeds * feeRate
    let cash := st.cash + (proceeds - commission)
    let completed :=
      match st.entryPrice with
      | some _ => if st.entryShares ≠ 0 then st.completedTrades + 1 else st.completedTrades
      | none => st.completedTrades
    let winCount :=
      match st.entryPrice with
      | some ep => if st.entryShares ≠ 0 ∧ ep < price then st.wins + 1 else st.wins
      | none => st.wins
    { st with cash := cash, shares := 0,
              completedTrades := completed, wins := winCount,
              trades := st.trades ++ [{ timestamp := t, side := Side.sell, price := price,
                                        shares := st.shares, equityAfterTrade := rnd2 cash }],
              equityCurve := setLastEquity st.equityCurve (rnd2 cash) }
  else st

/-- The simulation loop proper (routes.py lines 249-293): fold `step`
over the rows `(timestamp, close, signal)` of the trimmed history. -/
def simulate (feeRate initialCapital : ℚ) (rows : List (ℕ × ℚ × ℤ)) : SimState :=
  rows.foldl (step feeRate) (initState initialCapital)

/-- Loop plus forced liquidation (routes.py lines 249-315).  The source
guards the liquidation by `shares > 0` and then reads the last bar with
`history.iloc[-1]`; when the history is empty the share count is still
zero, so checking for a last row first is equivalent. -/
def runSimulation (feeRate initialCapital : ℚ) (rows : List (ℕ × ℚ × ℤ)) : SimState :=
  let st := simulate feeRate initialCapital rows
  match rows.getLast? with
  | some r => forceLiquidate feeRate r.1 r.2.1 st
  | none => st

/-- Win rate `(wins / completed_trades) if completed_trades > 0 else 0.0`
(routes.py line 329). -/
def winRate (wins completedTrades : ℕ) : ℚ :=
  if 0 < completedTrades then (wins : ℚ) / (completedTrades : ℚ) else 0

/-- Total return `(equity_curve[-1]["equity"] / initial_capital) - 1 if
equity_curve else 0.0` (routes.py line 330). -/
def totalReturn (equityCurve : List EquityPoint) (initialCapital : ℚ) : ℚ :=
  match equityCurve.getLast? with
  | some p => p.equity / initialCapital - 1
  | none => 0

/-- Position series `pd.Series(1, index=history.index)` of the buyhold strategy
(routes.py line 221): the position target is `1` at every bar. -/
def buyholdPositions (bars : List (ℕ × ℚ)) : List ℤ :=
  bars.map (fun _ => 1)

/-- The buyhold instance of the backtest pipeline (routes.py lines
220-221, 225-226, 249-315): constant position `1`, differenced signal,
then the simulation loop with forced liquidation. -/
def buyholdBacktest (initialCapital feeRate : ℚ) (bars : List (ℕ × ℚ)) : SimState :=
  let positions := buyholdPositions bars
  let signals := signalOf positions
  let rows := (bars.zip signals).map (fun bs => (bs.1.1, bs.1.2, bs.2))
  runSimulation feeRate initialCapital rows

/-- A two-level rolling mean with pandas semantics
(`series.rolling(window).mean()`, routes.py lines 203-204): the value at
index `i` is defined exactly when the trailing `window` entries all exist
(so in particular `i + 1 ≥ window`), and is their arithmetic mean. -/
def rollingMean (window : ℕ) (l : List (Option ℚ)) : List (Option ℚ) :=
  (List.range l.length).map (fun i =>
    if window ≤ i + 1 then
      let win := (l.drop (i + 1 - window)).take window
      if win.all Option.isSome then some ((win.filterMap id).sum / (window : ℚ)) else none
    else none)

/-- The RSI indicator series (routes.py lines 200-206): `delta` is the
close-to-close difference (`NaN` at index 0), gains and losses are the
clipped deltas, `roll_up`/`roll_down` their rolling means, `rs` their
ratio with a zero denominator replaced by `NaN`, and
`rsi = 100 - 100/(1+rs)`.  `none` models pandas `NaN`. -/
def rsiOf (closes : List ℚ) (window : ℕ) : List (Option ℚ) :=
  let delta : List (Option ℚ) :=
    match closes with
    | [] => []
    | _ :: t => none :: List.zipWith (fun cur prev => some (cur - prev)) t closes
  let up := delta.map (Option.map (fun d => max d 0))
  let down := delta.map (Option.map (fun d => -1 * min d 0))
  let rollUp := rollingMean window up
  let rollDown := rollingMean window down
  let rs := List.zipWith (fun u d =>
    match u, d with
    | some a, some b => if b = 0 then none else some (a / b)
    | _, _ => none) rollUp rollDown
  rs.map (Option.map (fun x => 100 - 100 / (1 + x)))

/-- Trimming `history.dropna(subset=["rsi"])` (routes.py line 207): keep exactly
the bars whose RSI value is defined, paired with that value. -/
def rsiTrimmed (bars : List (ℕ × ℚ)) (window : ℕ) : List ((ℕ × ℚ) × ℚ) :=
  (bars.zip (rsiOf (bars.map Prod.snd) window)).filterMap
    (fun br => br.2.map (fun r => (br.1, r)))

/-- The RSI position rule (routes.py lines 208-210):
`position = (rsi < oversold).astype(int)` followed by
`position = position.where(rsi <= overbought, 0)` — keep the oversold
test where `rsi ≤ overbought`, force `0` elsewhere.  A stateless
per-bar map over the trimmed RSI series. -/
def positionFromRsi (oversold overbought : ℚ) (rsis : List ℚ) : List ℤ :=
  rsis.map (fun r => if r ≤ overbought then (if r < oversold then 1 else 0) else 0)

/-- The errors the RSI branch of the endpoint can raise past parameter
validation.  `keyError` models the uncaught pandas `KeyError` thrown by
`pd.DataFrame(equity_curve).set_index("timestamp")` (routes.py line 317)
when `equity_curve` is empty: an empty frame has no columns.  The source
defines no InsufficientData (or similar) error anywhere. -/
inductive BtError where
  | keyError : String → BtError
deriving DecidableEq, Repr

/-- The metrics stage entry point (routes.py line 317):
`pd.DataFrame(equity_curve).set_index("timestamp")` raises
`KeyError("timestamp")` when the equity curve is empty, and otherwise
succeeds. -/
def metricsFrame (st : SimState) : Except BtError SimState :=
  if st.equityCurve.isEmpty then Except.error (BtError.keyError "timestamp")
  else Except.ok st

/-- The RSI instance of the backtest pipeline (routes.py lines 199-210,
225-226, 249-317): indicator, dropna trimming, position mask, differenced
signal, simulation with forced liquidation, then the metrics stage, whose
`KeyError` is the only failure past parameter validation. -/
def rsiBacktest (window : ℕ) (oversold overbought initialCapital feeRate : ℚ)
    (bars : List (ℕ × ℚ)) : Except BtError SimState :=
  let trimmed := rsiTrimmed bars window
  let positions := positionFromRsi oversold overbought (trimmed.map Prod.snd)
  let signals := signalOf positions
  let rows := (trimmed.zip signals).map (fun bs => (bs.1.1.1, bs.1.1.2, bs.2))
  metricsFrame (runSimulation feeRate initialCapital rows)

/-- Return series `equity_df["equity"].pct_change().dropna()` (routes.py line 318):
per-bar simple returns `r[i] = equity[i]/equity[i-1] - 1`, the undefined
first entry dropped. -/
def pctChangeDrop (l : List ℚ) : List ℚ :=
  List.zipWith (fun prev cur => cur / prev - 1) l l.tail

/-- Arithmetic mean of a list (`returns.mean()`). -/
def listMean (l : List ℚ) : ℚ :=
  l.sum / (l.length : ℚ)

/-- Sample variance with the pandas default `ddof = 1`
(`returns.std()` is its square root): sum of squared deviations over
`n - 1`. -/
def sampleVar (l : List ℚ) : ℚ :=
  (l.map (fun x => (x - listMean l) ^ 2)).sum / ((l.length : ℚ) - 1)

/-- Sharpe ratio (routes.py lines 318-323):
`(returns.mean() / returns.std()) * sqrt(252)` when
`not returns.empty and returns.std() > 0`, else `0.0`.  The pandas sample
standard deviation is `NaN` for fewer than two observations and `NaN > 0`
is false, so over exact rationals the guard is: at least two return
observations and positive sample variance (the standard deviation is the
square root of the variance, hence positive exactly when the variance
is). -/
noncomputable def sharpeOf (equity : List ℚ) : ℝ :=
  let r := pctChangeDrop equity
  if 2 ≤ r.length ∧ 0 < sampleVar r then
    ((listMean r : ℝ) / Real.sqrt ((sampleVar r : ℚ) : ℝ)) * Real.sqrt 252
  else 0

/-- Validity of a trade-side sequence against the ledger discipline of
the simulation loop: starting from a long-flag (`false` = flat), a BUY is
legal only while flat and flips to long, a SELL only while long and flips
to flat; `some f` returns the final flag, `none` marks an illegal
sequence.  `scanSides l false = some f` says exactly that `l` strictly
alternates BUY, SELL, BUY, ... and leaves the position flag at `f`. -/
def scanSides : List Side → Bool → Option Bool
  | [], long => some long
  | Side.buy :: rest, false => scanSides rest true
  | Side.sell :: rest, true => scanSides rest false
  | Side.buy :: _, true => none
  | Side.sell :: _, false => none

/-- The ledger invariant of the simulation loop: the recorded trade sides
form a legal alternating sequence from flat, and the final flag is
exactly whether the ledger currently holds shares. -/
def TradesOK (st : SimState) : Prop :=
  scanSides (st.trades.map Trade.side) false = some (decide (0 < st.shares))

/-- The five-bar demo close series of the spec scenario, with bar
indices as timestamps. -/
def bars5 : List (ℕ × ℚ) := [(0, 100), (1, 101), (2, 102), (3, 99), (4, 105)]

/-- Claim C1 (code bug): the signal series is
`history["position"].diff().fillna(0)`, so `signal[i] = position[i] -
position[i-1]` does hold for `i ≥ 1`, but the first element is the
`fillna` constant `0`, not `position[0] - 0`.  For the buyhold position
series (all ones) the whole signal series is zero, so no BUY is ever
attempted — contradicting the claim that `signal[0] = position[0]` opens
a BUY at the first bar. -/
theorem signal_first_element_zero :
    signalOf [1, 1] = [0, 0] ∧ signalOf [0, 1, 1, 0] = [0, 1, 0, -1] := by
  decide

/-- Claim C2 (code bug): on the spec scenario (BuyHold, closes
`[100,101,102,99,105]`, capital `10000`, zero fee) the code records no
trade at all: the differenced signal is identically zero, cash stays at
`10000`, the equity curve is flat, and the reported total return,
completed-trade count and win rate are all `0` — not the claimed single
winning round trip returning `0.05`. -/
theorem buyhold_scenario_run :
    buyholdBacktest 10000 0 bars5 =
      { cash := 10000, shares := 0, entryPrice := none, entryShares := 0,
        completedTrades := 0, wins := 0, trades := [],
        equityCurve := [⟨0, 10000⟩, ⟨1, 10000⟩, ⟨2, 10000⟩, ⟨3, 10000⟩, ⟨4, 10000⟩] }
    ∧ totalReturn (buyholdBacktest 10000 0 bars5).equityCurve 10000 = 0
    ∧ winRate (buyholdBacktest 10000 0 bars5).wins
        (buyholdBacktest 10000 0 bars5).completedTrades = 0 := by
  norm_num [bars5, buyholdBacktest, buyholdPositions, signalOf, runSimulation, simulate,
    step, initState, forceLiquidate, rnd2, totalReturn, winRate, List.foldl]

/-- Counterexample to claim C3: on closes `[100,90,95,94,99]` with RSI
window `2` the trimmed RSI series is `[100/3, 250/3, 250/3]`.  With
`oversold = 40`, `overbought = 90` the first value is below oversold, so
position `1`; the second value lies inside the band
`oversold ≤ rsi ≤ overbought`, yet its position is `0`, not the retained
previous value `1` — the code has no hysteresis. -/
theorem rsi_hysteresis_cex :
    rsiTrimmed [(0, 100), (1, 90), (2, 95), (3, 94), (4, 99)] 2 =
      [((2, 95), 100/3), ((3, 94), 250/3), ((4, 99), 250/3)]
    ∧ positionFromRsi 40 90 [100/3, 250/3, 250/3] = [1, 0, 0]
    ∧ (40 : ℚ) ≤ 250/3 ∧ (250/3 : ℚ) ≤ 90 := by
  refine ⟨?_, ?_, by norm_num, by norm_num⟩
  · norm_num [rsiTrimmed, rsiOf, rollingMean, List.range_succ,
      List.filterMap_cons, List.filterMap_nil]
  · norm_num [positionFromRsi]

/-- Claim C3 (amended): the RSI position rule is a stateless per-bar
threshold.  Whenever `oversold ≤ overbought`, the position at a bar is
`1` exactly when `rsi < oversold` and `0` otherwise; in particular every
bar with `oversold ≤ rsi ≤ overbought` gets position `0` regardless of
the previous bar, and bars with `rsi > overbought` get `0`. -/
theorem rsi_position_stateless (oversold overbought : ℚ)
    (h : oversold ≤ overbought) (rsis : List ℚ) :
    positionFromRsi oversold overbought rsis =
      rsis.map (fun r => if r < oversold then 1 else 0) := by
  have key : ∀ r : ℚ,
      (if r ≤ overbought then (if r < oversold then (1 : ℤ) else 0) else 0) =
        if r < oversold then 1 else 0 := by
    intro r
    by_cases hr : r < oversold
    · simp [hr, le_trans hr.le h]
    · simp [hr]
  simp only [positionFromRsi]
  congr 1
  funext r
  exact key r

/-- Witness for `rsi_position_stateless` at `oversold = 30`,
`overbought = 70`, RSI values `[20, 50, 80]`. -/
theorem rsi_position_stateless_witness :
    positionFromRsi 30 70 [20, 50, 80] = [1, 0, 0] := by
  rw [rsi_position_stateless 30 70 (by norm_num) [20, 50, 80]]
  norm_num

/-- Counterexample to claim C4: on the constant close series
`[100,100,100]` with RSI window `1`, trimming removes every bar, yet the
pipeline does not fail with an InsufficientData error before simulation
— no such error exists in the code.  The simulation loop runs over zero
bars and the run then fails at the metrics stage with the uncaught
`KeyError("timestamp")` from `pd.DataFrame([]).set_index("timestamp")`. -/
theorem insufficient_data_cex :
    rsiTrimmed [(0, 100), (1, 100), (2, 100)] 1 = []
    ∧ rsiBacktest 1 30 70 10000 0 [(0, 100), (1, 100), (2, 100)] =
        Except.error (BtError.keyError "timestamp") := by
  constructor
  · norm_num [rsiTrimmed, rsiOf, rollingMean, List.range_succ,
      List.filterMap_cons, List.filterMap_nil]
  · norm_num [rsiBacktest, rsiTrimmed, rsiOf, rollingMean, List.range_succ,
      List.filterMap_cons, List.filterMap_nil, positionFromRsi, signalOf,
      runSimulation, simulate, initState, metricsFrame]

/-- Claim C4 (amended): whenever indicator trimming removes every bar of
an RSI backtest, the code raises no InsufficientData error; the
simulation loop runs over the empty series, producing empty trades and
equity curve, and the request fails afterwards at the metrics stage with
the uncaught `KeyError("timestamp")`. -/
theorem empty_trim_keyerror (window : ℕ)
    (oversold overbought initialCapital feeRate : ℚ) (bars : List (ℕ × ℚ))
    (h : rsiTrimmed bars window = []) :
    rsiBacktest window oversold overbought initialCapital feeRate bars =
      Except.error (BtError.keyError "timestamp") := by
  simp [rsiBacktest, h, positionFromRsi, signalOf, runSimulation, simulate,
    initState, metricsFrame]

/-- Witness for `empty_trim_keyerror`: a two-bar series shorter than the
RSI warm-up for window `5`. -/
theorem empty_trim_keyerror_witness :
    rsiBacktest 5 30 70 10000 0 [(0, 5), (1, 6)] =
      Except.error (BtError.keyError "timestamp") := by
  refine empty_trim_keyerror 5 30 70 10000 0 [(0, 5), (1, 6)] ?_
  norm_num [rsiTrimmed, rsiOf, rollingMean, List.range_succ,
    List.filterMap_cons, List.filterMap_nil]

/-- Claim C6: fees are proportional to gross notional.  An executed BUY
of `n = floor(cash / price)` shares debits cash by exactly
`n * price * (1 + fee_rate)`; an executed SELL (signal-driven or the
end-of-run forced sell) of the `n` held shares credits cash by exactly
`n * price * (1 - fee_rate)`. -/
theorem fee_on_gross_notional (feeRate price : ℚ) (t : ℕ) (st : SimState) :
    (st.shares = 0 → 0 < ⌊st.cash / price⌋ →
      (step feeRate st (t, price, 1)).cash
        = st.cash - (⌊st.cash / price⌋ : ℚ) * price * (1 + feeRate))
    ∧ (0 < st.shares →
      (step feeRate st (t, price, -1)).cash
        = st.cash + (st.shares : ℚ) * price * (1 - feeRate))
    ∧ (0 < st.shares →
      (forceLiquidate feeRate t price st).cash
        = st.cash + (st.shares : ℚ) * price * (1 - feeRate)) := by
  refine ⟨?_, ?_, ?_⟩
  · intro h0 hn
    simp [step, h0, hn]
    ring
  · intro hn
    simp [step, hn]
    ring
  · intro hn
    simp [forceLiquidate, hn]
    ring

/-- Witness for `fee_on_gross_notional`: with `fee_rate = 1/100`, a BUY
of `10` shares at price `100` out of `1050` cash leaves `40`
(`1050 - 10 * 100 * 1.01 = 1050 - 1010`); a zero-fee SELL (ordinary and
forced) of `10` shares at `105` from `1000` cash leaves `2050`. -/
theorem fee_on_gross_notional_witness :
    (step (1/100) (initState 1050) (0, 100, 1)).cash = 40
    ∧ (step 0 ⟨1000, 10, some 100, 10, 0, 0, [], []⟩ (1, 105, -1)).cash = 2050
    ∧ (forceLiquidate 0 1 105 ⟨1000, 10, some 100, 10, 0, 0, [], []⟩).cash = 2050 := by
  refine ⟨?_, ?_, ?_⟩
  · have h := (fee_on_gross_notional (1/100) 100 0 (initState 1050)).1 rfl
      (by norm_num [initState])
    rw [h]
    norm_num [initState]
  · have h := (fee_on_gross_notional 0 105 1
      ⟨1000, 10, some 100, 10, 0, 0, [], []⟩).2.1 (by norm_num)
    rw [h]
    norm_num
  · have h := (fee_on_gross_notional 0 105 1
      ⟨1000, 10, some 100, 10, 0, 0, [], []⟩).2.2 (by norm_num)
    rw [h]
    norm_num

/-- Claim C8: a BUY signal while flat with `floor(cash / price) = 0`
changes nothing except the equity curve, which still receives a point for
the bar whose (reported, 2-decimal-rounded) value is the cash: no trade
is recorded, the share count stays `0`, cash is unchanged. -/
theorem zero_affordability_no_trade (feeRate price : ℚ) (t : ℕ) (st : SimState)
    (hsh : st.shares = 0) (hafford : ⌊st.cash / price⌋ = 0) :
    step feeRate st (t, price, 1) =
      { st with equityCurve :=
          st.equityCurve ++ [{ timestamp := t, equity := rnd2 st.cash }] } := by
  obtain ⟨cash, shares, ep, es, ct, w, tr, eq⟩ := st
  dsimp only at hsh
  subst hsh
  simp [step, hafford]

/-- Witness for `zero_affordability_no_trade`: capital `50`, price `100`:
no trade, flat equity point of `50`. -/
theorem zero_affordability_no_trade_witness :
    step 0 (initState 50) (0, 100, 1) =
      { initState 50 with equityCurve := [{ timestamp := 0, equity := 50 }] } := by
  have h := zero_affordability_no_trade 0 100 0 (initState 50) rfl
    (by norm_num [initState])
  rw [h]
  norm_num [initState, rnd2]

/-- Claim C9: an ordinary SELL that closes a recorded entry
(`entry_price` set, `entry_shares` nonzero) increments the
completed-trade count by exactly one and increments the win count
exactly when the sell price is strictly above the entry price; a sell at
the entry price is no win.  The win rate is `wins / completed_trades`
when `completed_trades > 0` and `0` otherwise. -/
theorem sell_round_trip_accounting (feeRate price : ℚ) (t : ℕ) (st : SimState)
    (ep : ℚ) (hsh : 0 < st.shares) (hep : st.entryPrice = some ep)
    (hes : st.entryShares ≠ 0) :
    (step feeRate st (t, price, -1)).completedTrades = st.completedTrades + 1
    ∧ (step feeRate st (t, price, -1)).wins
        = (if ep < price then st.wins + 1 else st.wins)
    ∧ (price = ep → (step feeRate st (t, price, -1)).wins = st.wins)
    ∧ (∀ wins completed : ℕ,
        (0 < completed → winRate wins completed = (wins : ℚ) / (completed : ℚ))
        ∧ (completed = 0 → winRate wins completed = 0)) := by
  refine ⟨?_, ?_, ?_, ?_⟩
  · simp [step, hep, hes, hsh]
  · simp [step, hep, hes, hsh]
  · intro hpe
    subst hpe
    simp [step, hep, hes, hsh]
  · intro wins completed
    exact ⟨fun hc => by simp [winRate, hc], fun hc => by simp [winRate, hc]⟩

/-- Witness for `sell_round_trip_accounting`: selling `10` shares
entered at `100` for `101` turns `2` completed trades and `1` win into
`3` and `2`. -/
theorem sell_round_trip_accounting_witness :
    (step 0 ⟨1000, 10, some 100, 10, 2, 1, [], []⟩ (3, 101, -1)).completedTrades = 3
    ∧ (step 0 ⟨1000, 10, some 100, 10, 2, 1, [], []⟩ (3, 101, -1)).wins = 2 := by
  have h := sell_round_trip_accounting 0 101 3
    ⟨1000, 10, some 100, 10, 2, 1, [], []⟩ 100 (by norm_num) rfl (by norm_num)
  refine ⟨h.1, ?_⟩
  rw [h.2.1]
  norm_num

/-- Claim C7: the Sharpe ratio of routes.py lines 318-323 equals
`mean(r) / stddev(r) * sqrt(252)` over the per-bar simple returns of the
equity curve, with the sample standard deviation, whenever at least two
return observations exist and the deviation is positive; with fewer than
two observations or a zero deviation it is exactly `0`. -/
theorem sharpe_spec (equity : List ℚ) :
    (2 ≤ (pctChangeDrop equity).length → 0 < sampleVar (pctChangeDrop equity) →
      sharpeOf equity =
        ((listMean (pctChangeDrop equity) : ℝ) /
          Real.sqrt ((sampleVar (pctChangeDrop equity) : ℚ) : ℝ)) * Real.sqrt 252)
    ∧ ((pctChangeDrop equity).length < 2 ∨ sampleVar (pctChangeDrop equity) = 0 →
      sharpeOf equity = 0) := by
  constructor
  · intro h1 h2
    simp only [sharpeOf]
    rw [if_pos ⟨h1, h2⟩]
  · intro h
    simp only [sharpeOf]
    rw [if_neg]
    rintro ⟨h1, h2⟩
    rcases h with h | h
    · exact absurd h1 (not_le.mpr h)
    · rw [h] at h2
      exact lt_irrefl 0 h2

/-- Witness for `sharpe_spec`: a flat equity curve has zero returns and
Sharpe `0`; the curve `[1, 2, 1]` has returns `[1, -1/2]` with positive
sample variance, hence the annualised mean-over-deviation formula. -/
theorem sharpe_spec_witness :
    sharpeOf [100, 100, 100] = 0
    ∧ sharpeOf [1, 2, 1] =
        ((listMean (pctChangeDrop [1, 2, 1]) : ℝ) /
          Real.sqrt ((sampleVar (pctChangeDrop [1, 2, 1]) : ℚ) : ℝ)) * Real.sqrt 252 := by
  constructor
  · refine (sharpe_spec [100, 100, 100]).2 (Or.inr ?_)
    norm_num [pctChangeDrop, sampleVar, listMean]
  · exact (sharpe_spec [1, 2, 1]).1 (by norm_num [pctChangeDrop])
      (by norm_num [pctChangeDrop, sampleVar, listMean])


theorem scanSides_append (l₁ l₂ : List Side) (b : Bool) :
    scanSides (l₁ ++ l₂) b = (scanSides l₁ b).bind (fun f => scanSides l₂ f) := by
  induction l₁ generalizing b with
  | nil => rfl
  | cons s rest ih => cases s <;> cases b <;> simp [scanSides, ih]

theorem scanSides_getLast (l : List Side) (b f : Bool) (h : scanSides l b = some f) :
    (l = [] ∧ f = b) ∨ l.getLast? = some (if f then Side.buy else Side.sell) := by
  induction l generalizing b with
  | nil =>
    left
    refine ⟨rfl, ?_⟩
    simpa [scanSides] using h.symm
  | cons s rest ih =>
    right
    cases s <;> cases b
    · simp only [scanSides] at h
      rcases ih true h with ⟨h1, h2⟩ | h1
      · subst h1
        simp [h2]
      · cases rest with
        | nil => simp at h1
        | cons x xs => rw [List.getLast?_cons_cons]; exact h1
    · simp [scanSides] at h
    · simp [scanSides] at h
    · simp only [scanSides] at h
      rcases ih false h with ⟨h1, h2⟩ | h1
      · subst h1
        simp [h2]
      · cases rest with
        | nil => simp at h1
        | cons x xs => rw [List.getLast?_cons_cons]; exact h1

theorem step_tradesOK (feeRate : ℚ) (st : SimState) (row : ℕ × ℚ × ℤ)
    (h : TradesOK st) : TradesOK (step feeRate st row) := by
  rcases row with ⟨t, price, sig⟩
  unfold TradesOK at h ⊢
  simp only [step]
  by_cases h1 : sig = 1 ∧ st.shares = 0
  · rw [if_pos h1]
    by_cases h2 : 0 < ⌊st.cash / price⌋
    · rw [if_pos h2]
      dsimp only
      rw [List.map_append, scanSides_append, h]
      have hflag : decide (0 < st.shares) = false := by simp [h1.2]
      rw [hflag]
      simp [scanSides, h2]
    · rw [if_neg h2]
      dsimp only
      rw [h]
      simp [h1.2, h2]
  · rw [if_neg h1]
    by_cases h2 : sig = -1 ∧ 0 < st.shares
    · rw [if_pos h2]
      dsimp only
      rw [List.map_append, scanSides_append, h]
      have hflag : decide (0 < st.shares) = true := by simp [h2.2]
      rw [hflag]
      simp [scanSides]
    · rw [if_neg h2]
      exact h

theorem foldl_tradesOK (feeRate : ℚ) (rows : List (ℕ × ℚ × ℤ)) (st : SimState)
    (h : TradesOK st) : TradesOK (rows.foldl (step feeRate) st) := by
  induction rows generalizing st with
  | nil => exact h
  | cons r rest ih => exact ih _ (step_tradesOK feeRate st r h)

theorem initState_tradesOK (initialCapital : ℚ) : TradesOK (initState initialCapital) := by
  simp [TradesOK, initState, scanSides]

theorem forceLiquidate_tradesOK (feeRate : ℚ) (t : ℕ) (price : ℚ) (st : SimState)
    (h : TradesOK st) : TradesOK (forceLiquidate feeRate t price st) := by
  unfold TradesOK at h ⊢
  unfold forceLiquidate
  by_cases hs : 0 < st.shares
  · rw [if_pos hs]
    dsimp only
    rw [List.map_append, scanSides_append, h]
    have hflag : decide (0 < st.shares) = true := by simp [hs]
    rw [hflag]
    simp [scanSides]
  · rw [if_neg hs]
    exact h

theorem simulate_tradesOK (feeRate initialCapital : ℚ) (rows : List (ℕ × ℚ × ℤ)) :
    TradesOK (simulate feeRate initialCapital rows) :=
  foldl_tradesOK feeRate rows _ (initState_tradesOK initialCapital)

theorem runSimulation_eq_liquidate (feeRate initialCapital : ℚ)
    (rows : List (ℕ × ℚ × ℤ)) (r : ℕ × ℚ × ℤ) (h : rows.getLast? = some r) :
    runSimulation feeRate initialCapital rows
      = forceLiquidate feeRate r.1 r.2.1 (simulate feeRate initialCapital rows) := by
  unfold runSimulation
  rw [h]

theorem runSimulation_eq_simulate (feeRate initialCapital : ℚ)
    (rows : List (ℕ × ℚ × ℤ)) (h : rows.getLast? = none) :
    runSimulation feeRate initialCapital rows = simulate feeRate initialCapital rows := by
  unfold runSimulation
  rw [h]

/-- Claim C10: in every run the recorded trades strictly alternate sides
starting with BUY — `scanSides` validates exactly that discipline (BUY
only while flat, SELL, including the forced one, only while long) — the
run ends flat, and after any prefix of the bars the ledger holds shares
exactly when the last recorded trade is a BUY (so shares are positive
precisely on the bars between a BUY and its following SELL). -/
theorem trades_alternate (feeRate initialCapital : ℚ) (rows : List (ℕ × ℚ × ℤ)) :
    scanSides (((runSimulation feeRate initialCapital rows).trades).map Trade.side) false
      = some false
    ∧ ∀ k : ℕ,
        scanSides (((simulate feeRate initialCapital (rows.take k)).trades).map Trade.side)
            false
          = some (decide (0 < (simulate feeRate initialCapital (rows.take k)).shares))
        ∧ (0 < (simulate feeRate initialCapital (rows.take k)).shares
            ↔ (((simulate feeRate initialCapital (rows.take k)).trades).map Trade.side).getLast?
                = some Side.buy) := by
  constructor
  · have hrun : TradesOK (runSimulation feeRate initialCapital rows) := by
      cases h : rows.getLast? with
      | none =>
        rw [runSimulation_eq_simulate _ _ _ h]
        exact simulate_tradesOK feeRate initialCapital rows
      | some r =>
        rw [runSimulation_eq_liquidate _ _ _ _ h]
        exact forceLiquidate_tradesOK _ _ _ _ (simulate_tradesOK feeRate initialCapital rows)
    have hns : ¬ 0 < (runSimulation feeRate initialCapital rows).shares := by
      cases h : rows.getLast? with
      | none =>
        rw [runSimulation_eq_simulate _ _ _ h]
        have hnil : rows = [] := List.getLast?_eq_none_iff.mp h
        subst hnil
        simp [simulate, initState]
      | some r =>
        rw [runSimulation_eq_liquidate _ _ _ _ h]
        unfold forceLiquidate
        by_cases hs : 0 < (simulate feeRate initialCapital rows).shares
        · rw [if_pos hs]
          simp
        · rw [if_neg hs]
          exact hs
    unfold TradesOK at hrun
    rw [hrun]
    simp [hns]
  · intro k
    have h := simulate_tradesOK feeRate initialCapital (rows.take k)
    unfold TradesOK at h
    refine ⟨h, ?_, ?_⟩
    · intro hpos
      rcases scanSides_getLast _ _ _ h with ⟨h1, h2⟩ | h1
      · simp [hpos] at h2
      · simpa [hpos] using h1
    · intro hlast
      by_contra hpos
      rcases scanSides_getLast _ _ _ h with ⟨h1, h2⟩ | h1
      · rw [h1] at hlast
        simp at hlast
      · rw [hlast] at h1
        simp [hpos] at h1

theorem step_equityCurve_length (feeRate : ℚ) (st : SimState) (row : ℕ × ℚ × ℤ) :
    (step feeRate st row).equityCurve.length = st.equityCurve.length + 1 := by
  rcases row with ⟨t, price, sig⟩
  simp only [step]
  by_cases h1 : sig = 1 ∧ st.shares = 0
  · rw [if_pos h1]
    by_cases h2 : 0 < ⌊st.cash / price⌋
    · rw [if_pos h2]
      simp
    · rw [if_neg h2]
      simp
  · rw [if_neg h1]
    by_cases h2 : sig = -1 ∧ 0 < st.shares
    · rw [if_pos h2]
      simp
    · rw [if_neg h2]
      simp

theorem foldl_equityCurve_length (feeRate : ℚ) (rows : List (ℕ × ℚ × ℤ)) (st : SimState) :
    (rows.foldl (step feeRate) st).equityCurve.length
      = st.equityCurve.length + rows.length := by
  induction rows generalizing st with
  | nil => simp
  | cons r rest ih =>
    simp only [List.foldl_cons, List.length_cons]
    rw [ih, step_equityCurve_length]
    omega

/-- The simulation loop appends exactly one equity point per bar. -/
theorem simulate_equityCurve_length (feeRate initialCapital : ℚ)
    (rows : List (ℕ × ℚ × ℤ)) :
    (simulate feeRate initialCapital rows).equityCurve.length = rows.length := by
  unfold simulate
  rw [foldl_equityCurve_length]
  simp [initState]

theorem setLastEquity_length (l : List EquityPoint) (v : ℚ) :
    (setLastEquity l v).length = l.length := by
  unfold setLastEquity
  cases h : l.getLast? with
  | none => rfl
  | some p =>
    have hne : l ≠ [] := by
      intro hnil
      subst hnil
      simp at h
    have hpos : 0 < l.length := List.length_pos.mpr hne
    rw [List.length_append, List.length_dropLast]
    simp
    omega

theorem setLastEquity_dropLast (l : List EquityPoint) (v : ℚ) :
    (setLastEquity l v).dropLast = l.dropLast := by
  unfold setLastEquity
  cases h : l.getLast? with
  | none => rfl
  | some p => rw [List.dropLast_concat]

theorem setLastEquity_getLast (l : List EquityPoint) (p : EquityPoint) (v : ℚ)
    (h : l.getLast? = some p) :
    (setLastEquity l v).getLast? = some { p with equity := v } := by
  unfold setLastEquity
  rw [h]
  exact List.getLast?_concat _

/-- The forced liquidation applies the same cash, completed-trade and win
accounting, and appends the same SELL trade, as an ordinary sell step at
the same bar. -/
theorem forceLiquidate_eq_sell_step (feeRate price : ℚ) (t : ℕ) (st : SimState)
    (hsh : 0 < st.shares) :
    (forceLiquidate feeRate t price st).cash = (step feeRate st (t, price, -1)).cash
    ∧ (forceLiquidate feeRate t price st).completedTrades
        = (step feeRate st (t, price, -1)).completedTrades
    ∧ (forceLiquidate feeRate t price st).wins = (step feeRate st (t, price, -1)).wins
    ∧ (forceLiquidate feeRate t price st).trades = (step feeRate st (t, price, -1)).trades := by
  have hc1 : ¬((-1 : ℤ) = 1 ∧ st.shares = 0) := by
    rintro ⟨hc, _⟩
    norm_num at hc
  have hc2 : (-1 : ℤ) = -1 ∧ 0 < st.shares := ⟨rfl, hsh⟩
  unfold forceLiquidate step
  dsimp only
  rw [if_neg hc1, if_pos hc2, if_pos hsh]
  exact ⟨rfl, rfl, rfl, rfl⟩

/-- Claim C5: whenever shares are still held after the last bar, the run
result equals the simulated state plus one forced sell: a synthetic SELL
trade at the last bar timestamp and close is appended, cash and the
completed-trade and win counters change exactly as in an ordinary sell at
that bar, the share count drops to zero, and the equity curve keeps its
length, its earlier points and its last timestamp, with only the last
point value overwritten by the (2-decimal-rounded) post-liquidation
cash. -/
theorem forced_liquidation_spec (feeRate initialCapital : ℚ)
    (rows : List (ℕ × ℚ × ℤ)) (lr : ℕ × ℚ × ℤ)
    (hlast : rows.getLast? = some lr)
    (hsh : 0 < (simulate feeRate initialCapital rows).shares) :
    (runSimulation feeRate initialCapital rows).trades
        = (simulate feeRate initialCapital rows).trades
          ++ [{ timestamp := lr.1, side := Side.sell, price := lr.2.1,
                shares := (simulate feeRate initialCapital rows).shares,
                equityAfterTrade := rnd2 ((simulate feeRate initialCapital rows).cash
                  + (((simulate feeRate initialCapital rows).shares : ℚ) * lr.2.1
                    - ((simulate feeRate initialCapital rows).shares : ℚ) * lr.2.1 * feeRate)) }]
    ∧ (runSimulation feeRate initialCapital rows).cash
        = (step feeRate (simulate feeRate initialCapital rows) (lr.1, lr.2.1, -1)).cash
    ∧ (runSimulation feeRate initialCapital rows).completedTrades
        = (step feeRate (simulate feeRate initialCapital rows) (lr.1, lr.2.1, -1)).completedTrades
    ∧ (runSimulation feeRate initialCapital rows).wins
        = (step feeRate (simulate feeRate initialCapital rows) (lr.1, lr.2.1, -1)).wins
    ∧ (runSimulation feeRate initialCapital rows).shares = 0
    ∧ (runSimulation feeRate initialCapital rows).equityCurve.length
        = (simulate feeRate initialCapital rows).equityCurve.length
    ∧ (runSimulation feeRate initialCapital rows).equityCurve.dropLast
        = (simulate feeRate initialCapital rows).equityCurve.dropLast
    ∧ ((runSimulation feeRate initialCapital rows).equityCurve.getLast?).map EquityPoint.equity
        = some (rnd2 ((runSimulation feeRate initialCapital rows).cash))
    ∧ ((runSimulation feeRate initialCapital rows).equityCurve.getLast?).map EquityPoint.timestamp
        = ((simulate feeRate initialCapital rows).equityCurve.getLast?).map
            EquityPoint.timestamp := by
  have hrw := runSimulation_eq_liquidate feeRate initialCapital rows lr hlast
  have hrne : rows ≠ [] := by
    intro hnil
    subst hnil
    simp at hlast
  have hcne : (simulate feeRate initialCapital rows).equityCurve ≠ [] := by
    intro hnil
    have hl := simulate_equityCurve_length feeRate initialCapital rows
    rw [hnil] at hl
    exact hrne (List.length_eq_zero.mp hl.symm)
  obtain ⟨p, hp⟩ : ∃ p, (simulate feeRate initialCapital rows).equityCurve.getLast? = some p := by
    cases hq : (simulate feeRate initialCapital rows).equityCurve.getLast? with
    | none => exact absurd (List.getLast?_eq_none_iff.mp hq) hcne
    | some p => exact ⟨p, rfl⟩
  have hparts := forceLiquidate_eq_sell_step feeRate lr.2.1 lr.1
    (simulate feeRate initialCapital rows) hsh
  refine ⟨?_, ?_, ?_, ?_, ?_, ?_, ?_, ?_, ?_⟩
  · rw [hrw]
    unfold forceLiquidate
    rw [if_pos hsh]
  · rw [hrw]
    exact hparts.1
  · rw [hrw]
    exact hparts.2.1
  · rw [hrw]
    exact hparts.2.2.1
  · rw [hrw]
    unfold forceLiquidate
    rw [if_pos hsh]
  · rw [hrw]
    unfold forceLiquidate
    rw [if_pos hsh]
    exact setLastEquity_length _ _
  · rw [hrw]
    unfold forceLiquidate
    rw [if_pos hsh]
    exact setLastEquity_dropLast _ _
  · rw [hrw]
    unfold forceLiquidate
    rw [if_pos hsh]
    rw [setLastEquity_getLast _ p _ hp]
    rfl
  · rw [hrw]
    unfold forceLiquidate
    rw [if_pos hsh]
    rw [setLastEquity_getLast _ p _ hp, hp]
    rfl

/-- Witness for `forced_liquidation_spec`: zero fee, capital `1000`, a
BUY signal at the first bar and a position still open at the second: the
run ends flat and the last equity point records the liquidation cash. -/
theorem forced_liquidation_spec_witness :
    (runSimulation 0 1000 [(0, 100, 1), (1, 110, 0)]).shares = 0
    ∧ ((runSimulation 0 1000 [(0, 100, 1), (1, 110, 0)]).equityCurve.getLast?).map
        EquityPoint.equity
      = some (rnd2 ((runSimulation 0 1000 [(0, 100, 1), (1, 110, 0)]).cash))
    ∧ (runSimulation 0 1000 [(0, 100, 1), (1, 110, 0)]).equityCurve.length
        = (simulate 0 1000 [(0, 100, 1), (1, 110, 0)]).equityCurve.length := by
  have h := forced_liquidation_spec 0 1000 [(0, 100, 1), (1, 110, 0)] (1, 110, 0) rfl
    (by norm_num [simulate, step, initState, rnd2, List.foldl])
  exact ⟨h.2.2.2.2.1, h.2.2.2.2.2.2.2.1, h.2.2.2.2.2.1⟩
